import Mathlib

/-!
# alfred-weather: the `config` command (`config.go`)

A shallow embedding of `ConfigCommand.Items`, `ConfigCommand.Do` and
`makeStringChoice`.

The Go code walks the fields of the global `config` struct by reflection. The
struct is embedded as the ordered list of its fields, each with its name, its
`desc` tag and its current value, so that `reflect.Type.Field(i)`,
`Value.FieldByName` and the `Set…` calls become list operations.

Everything that `config.go` calls but does not define (the go-alfred helpers,
the geocoder, the directory listing, the JSON codec, the constants of the option
tables) is collected in the record `Env`; the functions below are parametric in it.

The declaration of the struct is not part of `config.go` either. The fields
`Icons` and `TimeFormat`, which the source concatenates to string literals, are Go
strings. The fields `Service` and `Units` are formatted with `%v` and their constants
are converted with `string(…)`: they may be Go strings or values of a named type
whose underlying type is string (`type service string`), and the model has both. A
reflection call that panics, or a named option whose field has a type the source
does not compile with, makes the model answer `panic`.
-/

namespace AlfredWeather

/-! ## Data model -/

/-- A Go `float64`, carried around as its IEEE-754 bit pattern. The command only
copies coordinates, it never computes with them. -/
abbrev Float64 := Nat

/-- Go `error` values seen by the command. -/
inductive Error where
  /-- The `*strconv.NumError` of `strconv.Atoi` on `input`. -/
  | numError (input : String) (outOfRange : Bool)
  /-- An error handed back by a collaborator (geocoder, file system, JSON codec). -/
  | collaborator (msg : String)
deriving DecidableEq, Repr

/-- The `Location` struct held by the `Location` field of the configuration. -/
structure Location where
  Name : String
  Latitude : Float64
  Longitude : Float64
deriving DecidableEq, Repr

/-- The result of a geocode lookup; `Items` reads `Name`, `Latitude`, `Longitude`. -/
structure Geocode where
  Name : String
  Latitude : Float64
  Longitude : Float64
deriving DecidableEq, Repr

/-- Modelled from the spec: the method `Geocode.Location()` is declared outside
`config.go`. The spec describes a location as the resolved triple of name,
latitude and longitude, replaced as a whole by a successful lookup. -/
def Geocode.Location (g : Geocode) : Location :=
  { Name := g.Name, Latitude := g.Latitude, Longitude := g.Longitude }

/-- The value of one struct field, together with its Go type:
`string`, `bool`, `int`, `Location`, a named type whose underlying type is string
(such as `type service string`), or any other type (of which the command only sees
the type name). -/
inductive Value where
  | str (s : String)
  | bool (b : Bool)
  | int (n : Int)
  | loc (l : Location)
  | named (typeName : String) (s : String)
  | other (typeName : String)
deriving DecidableEq, Repr

/-- One field of the configuration struct: `reflect.StructField.Name`, the `desc`
struct tag (empty when the tag is absent) and the current value. -/
structure Field where
  name : String
  desc : String
  val : Value
deriving DecidableEq, Repr

/-- The configuration struct, as the list of its fields in declaration order. -/
abbrev Config := List Field

/-- `reflect.Value.FieldByName`: the first field with the given name. -/
def Config.FieldByName (c : Config) (name : String) : Option Field :=
  c.find? (fun f => f.name = name)

/-- The effect of `o.FieldByName(name).Set…(v)` on a copy of the struct: the field
called `name` takes the value `v`, every other field is kept. -/
def Config.set : Config → String → Value → Config
  | [], _, _ => []
  | f :: fs, name, v =>
    if f.name = name then { f with val := v } :: fs else f :: Config.set fs name v

/-- The constant `alfred.ModeDo` and its sibling. -/
inductive ModeType where
  | ModeDo
  | ModeTell
deriving DecidableEq, Repr

/-- The struct `alfred.ItemArg`: what the host hands back when an item is chosen. -/
structure ItemArg where
  Keyword : String
  Mode : ModeType
  Data : String
deriving DecidableEq, Repr

/-- The struct `alfred.Item`, with the fields the command fills. `checkbox` records a
call of `AddCheckBox` with its argument. -/
structure Item where
  Title : String
  Subtitle : String
  Autocomplete : String
  Arg : Option ItemArg
  checkbox : Option Bool
deriving DecidableEq, Repr

/-- An entry of a directory listing (`os.FileInfo`). -/
structure FileInfo where
  Name : String
  IsDir : Bool
deriving DecidableEq, Repr

/-- The collaborators and tables of `config.go` that are defined elsewhere. -/
structure Env where
  /-- The go-alfred helper `alfred.SplitCmd`: option name and partial value of a query. -/
  SplitCmd : String → String × String
  /-- The go-alfred helper `alfred.FuzzyMatches val test`. -/
  FuzzyMatches : String → String → Bool
  /-- The go-alfred helper `alfred.FuzzySort items arg`, as the reordered slice. -/
  FuzzySort : List Item → String → List Item
  /-- The go-alfred helper `alfred.Stringify`, the JSON text of a configuration. -/
  Stringify : Config → String
  /-- The geocoder `Locate`. -/
  Locate : String → Except Error Geocode
  /-- The directory listing `ioutil.ReadDir`. -/
  ReadDir : String → Except Error (List FileInfo)
  /-- The verb `%f` of `fmt.Sprintf`. -/
  fmtF : Float64 → String
  /-- The decoder `json.Unmarshal(data, &config)`: the configuration it leaves in
  `config` (given the one before) and its error. -/
  Unmarshal : String → Config → Config × Option Error
  /-- The go-alfred helper `alfred.SaveJSON(configFile, &config)`: its error. -/
  SaveJSON : Config → Option Error
  /-- Constants of the option tables. -/
  serviceForecastIO : String
  serviceWunderground : String
  unitsMetric : String
  unitsUS : String
  TimeFormats : List String

/-! ## `strconv.Atoi` -/

/-- The digit loop of `strconv.ParseUint(s, 10, 64)`: a character that is no decimal
digit gives the error `ErrSyntax` (`false`), a digit that takes the number past
`1<<64 - 1` gives `ErrRange` (`true`) at once, before the rest is read. -/
def parseUint : List Char → Nat → Except Bool Nat
  | [], n => .ok n
  | c :: cs, n =>
    if c.isDigit then
      if 2 ^ 64 ≤ n * 10 + (c.toNat - 48) then .error true
      else parseUint cs (n * 10 + (c.toNat - 48))
    else .error false

/-- The range test of `strconv.ParseInt` for a 64-bit `int`, on the magnitude and
the sign. -/
def atoiRange (s : String) (neg : Bool) (n : Nat) : Except Error Int :=
  if neg then
    if n ≤ 2 ^ 63 then .ok (-(n : Int)) else .error (.numError s true)
  else
    if n < 2 ^ 63 then .ok (n : Int) else .error (.numError s true)

/-- The part of `strconv.Atoi` after the sign: at least one character, then the digit
loop and the range test. -/
def atoiDigits (s : String) (neg : Bool) (ds : List Char) : Except Error Int :=
  if ds = [] then .error (.numError s false)
  else
    match parseUint ds 0 with
    | .ok n => atoiRange s neg n
    | .error outOfRange => .error (.numError s outOfRange)

/-- The Go function `strconv.Atoi` for a 64-bit `int`: an optional sign, then decimal
digits only, with the value in range. Its error is a `*strconv.NumError` on the whole
input, with `ErrSyntax` or `ErrRange`. -/
def Atoi (s : String) : Except Error Int :=
  match s.toList with
  | '-' :: ds => atoiDigits s true ds
  | '+' :: ds => atoiDigits s false ds
  | ds => atoiDigits s false ds

/-- The argument of a commit candidate: `&alfred.ItemArg{Keyword: "config",
Mode: alfred.ModeDo, Data: alfred.Stringify(&opts)}`. -/
def commitArg (env : Env) (opts : Config) : ItemArg :=
  { Keyword := "config", Mode := .ModeDo, Data := env.Stringify opts }

/-- The function `makeStringChoice`. `none` stands for the panic of the type assertion
`o.FieldByName(fieldName).Interface().(string)`, which only a field of type `string`
passes (a value of a named string type does not), or of `FieldByName` on a name the
struct lacks. -/
def makeStringChoice (env : Env) (config : Config) (fieldName value : String) :
    Option Item :=
  match config.FieldByName fieldName with
  | some ⟨_, _, .str currentValue⟩ =>
    some { Title := value
           Subtitle := ""
           Autocomplete := ""
           Arg := some (commitArg env (config.set fieldName (.str value)))
           checkbox := some (decide (currentValue = value)) }
  | _ => none

/-- The statement `if alfred.FuzzyMatches(v, value) { items = append(items,
makeStringChoice(fieldName, v)) }`. -/
def appendChoiceIf (env : Env) (config : Config) (fieldName v value : String)
    (items : List Item) : Option (List Item) :=
  if env.FuzzyMatches v value then
    (makeStringChoice env config fieldName v).map (fun it => items ++ [it])
  else some items

/-- The loop `for _, tf := range TimeFormats { items = append(items,
makeStringChoice("TimeFormat", tf)) }`. -/
def appendTimeFormats (env : Env) (config : Config) : List String → List Item →
    Option (List Item)
  | [], items => some items
  | tf :: tfs, items =>
    match makeStringChoice env config "TimeFormat" tf with
    | some it => appendTimeFormats env config tfs (items ++ [it])
    | none => none

/-- The loop over the entries of the `icons` directory. -/
def appendIcons (env : Env) (config : Config) (value : String) : List FileInfo →
    List Item → Option (List Item)
  | [], items => some items
  | dir :: dirs, items =>
    if dir.IsDir && env.FuzzyMatches dir.Name value then
      match makeStringChoice env config "Icons" dir.Name with
      | some it => appendIcons env config value dirs (items ++ [it])
      | none => none
    else appendIcons env config value dirs items

/-- A statically typed read of a string field (`config.Icons`, `config.TimeFormat`). -/
def Config.getStr (c : Config) (name : String) : Option String :=
  match c.FieldByName name with
  | some ⟨_, _, .str s⟩ => some s
  | _ => none

/-- The text `%v` gives for `config.Service` and `config.Units`, fields of string
kind: a Go string or a value of a named string type. -/
def Config.getText (c : Config) (name : String) : Option String :=
  match c.FieldByName name with
  | some ⟨_, _, .str s⟩ => some s
  | some ⟨_, _, .named _ s⟩ => some s
  | _ => none

/-- The read `config.Location`. -/
def Config.getLoc (c : Config) : Option Location :=
  match c.FieldByName "Location" with
  | some ⟨_, _, .loc l⟩ => some l
  | _ => none

/-- What one pass of the loop body of `Items` does. -/
inductive Step where
  /-- The body ran to its end (or hit `continue`); the loop goes on. -/
  | next (items : List Item)
  /-- The body executed a `return`. -/
  | ret (items : List Item) (err : Option Error)
  /-- A reflection panic, or a field whose type the source does not compile with. -/
  | panic
deriving DecidableEq, Repr

/-- Lift of an optional item list to a step that returns. -/
def Step.retOf : Option (List Item) → Step
  | some items => .ret items none
  | none => .panic

/-- The summary line of one of the five named options. -/
def summaryItem (title desc autocomplete : String) : Item :=
  { Title := title, Subtitle := desc, Autocomplete := autocomplete, Arg := none,
    checkbox := none }

/-- The `default:` branch of the switch on `field.Name`: options of type `bool`,
`int`, `string`, and the rest. -/
def defaultStep (env : Env) (config : Config) (field : Field) (name value : String)
    (items : List Item) : Step :=
  let desc := field.desc
  match field.val with
  | .bool _ =>
    match config.FieldByName field.name with
    | some ⟨_, _, .bool b⟩ =>
      .next (items ++ [{ Title := if name = field.name then
                                    field.name ++ " (press Enter to toggle)"
                                  else field.name
                         Subtitle := desc
                         Autocomplete := field.name
                         Arg := some (commitArg env (config.set field.name (.bool (!b))))
                         checkbox := some b }])
    | _ => .panic
  | .int _ =>
    if value ≠ "" then
      match Atoi value with
      | .error err => .ret items (some err)
      | .ok val =>
        match config.FieldByName field.name with
        | some ⟨_, _, .int _⟩ =>
          .next (items ++ [{ Title := field.name ++ (": " ++ toString val)
                             Subtitle := desc
                             Autocomplete := field.name ++ " "
                             Arg := some (commitArg env (config.set field.name (.int val)))
                             checkbox := none }])
        | _ => .panic
    else
      match config.FieldByName field.name with
      | some ⟨_, _, .int val⟩ =>
        .next (items ++ [{ Title := if name = field.name then
                                      field.name ++ (": " ++ toString val)
                                        ++ " (type a new value to change)"
                                    else field.name ++ (": " ++ toString val)
                           Subtitle := desc
                           Autocomplete := field.name ++ " "
                           Arg := none
                           checkbox := none }])
      | _ => .panic
  | .str _ =>
    match config.FieldByName field.name with
    | some ⟨_, _, .str s⟩ =>
      .next (items ++ [{ Title := field.name ++ (": " ++ s)
                         Subtitle := desc
                         Autocomplete := field.name ++ " "
                         Arg := if name = field.name then
                                  some (commitArg env (config.set field.name (.str value)))
                                else none
                         checkbox := none }])
    | _ => .panic
  | _ =>
    .next (items ++ [{ Title := field.name, Subtitle := desc, Autocomplete := field.name,
                       Arg := none, checkbox := none }])

/-- The body of the loop of `Items` for one struct field, from the test of the
`desc` tag to the end of the switch. -/
def fieldStep (env : Env) (config : Config) (arg : String) (field : Field)
    (items : List Item) : Step :=
  let desc := field.desc
  if desc = "" then .next items
  else
    let name := (env.SplitCmd arg).1
    let value := (env.SplitCmd arg).2
    if !env.FuzzyMatches field.name name then .next items
    else if field.name = "Service" then
      if name = "Service" then
        Step.retOf
          ((appendChoiceIf env config "Service" env.serviceForecastIO value items).bind
            (appendChoiceIf env config "Service" env.serviceWunderground value))
      else
        match config.getText "Service" with
        | some s => .next (items ++ [summaryItem ("Service: " ++ s) desc "Service "])
        | none => .panic
    else if field.name = "Units" then
      if name = "Units" then
        Step.retOf
          ((appendChoiceIf env config "Units" env.unitsMetric value items).bind
            (appendChoiceIf env config "Units" env.unitsUS value))
      else
        match config.getText "Units" with
        | some s => .next (items ++ [summaryItem ("Units: " ++ s) desc "Units "])
        | none => .panic
    else if field.name = "Location" then
      match config.getLoc with
      | none => .panic
      | some cur =>
        if name = "Location" then
          if value = "" then
            .ret (items ++ [summaryItem ("Location: " ++ cur.Name)
                              "Enter a new city/state or ZIP" ""]) none
          else
            match env.Locate value with
            | .error err => .ret items (some err)
            | .ok location =>
              .ret (items ++ [{ Title := location.Name
                                Subtitle := "(" ++ env.fmtF location.Latitude ++ ", "
                                              ++ env.fmtF location.Longitude ++ ")"
                                Autocomplete := ""
                                Arg := some (commitArg env
                                  (config.set "Location" (.loc location.Location)))
                                checkbox := none }]) none
        else
          .next (items ++ [summaryItem ("Location: " ++ cur.Name) desc "Location "])
    else if field.name = "Icons" then
      if name = "Icons" then
        match env.ReadDir "icons" with
        | .error err => .ret items (some err)
        | .ok dirs => Step.retOf (appendIcons env config value dirs items)
      else
        match config.getStr "Icons" with
        | some s => .next (items ++ [summaryItem ("Icons: " ++ s) desc "Icons "])
        | none => .panic
    else if field.name = "TimeFormat" then
      if name = "TimeFormat" then
        Step.retOf (appendTimeFormats env config env.TimeFormats items)
      else
        match config.getStr "TimeFormat" with
        | some s => .next (items ++ [summaryItem ("TimeFormat: " ++ s) desc "TimeFormat "])
        | none => .panic
    else defaultStep env config field name value items

/-- The loop of `Items` over the remaining struct fields, followed by
`alfred.FuzzySort(items, arg)` and the final `return`. The result is the pair
`(items, err)`; `none` is a panic. -/
def ItemsLoop (env : Env) (config : Config) (arg : String) :
    List Field → List Item → Option (List Item × Option Error)
  | [], items => some (env.FuzzySort items arg, none)
  | field :: rest, items =>
    match fieldStep env config arg field items with
    | .next items1 => ItemsLoop env config arg rest items1
    | .ret items1 err => some (items1, err)
    | .panic => none

/-- The method `ConfigCommand.Items` (the argument `data` is not used by the source). -/
def Items (env : Env) (config : Config) (arg : String) :
    Option (List Item × Option Error) :=
  ItemsLoop env config arg config []

/-- What `Items` returns when the loop body leaves no later field to visit: the sorted
list after `next`, the returned pair after `return`. -/
def Step.finish (env : Env) (arg : String) : Step → Option (List Item × Option Error)
  | .next items => some (env.FuzzySort items arg, none)
  | .ret items err => some (items, err)
  | .panic => none

/-! ## `Do` -/

/-- The state the command acts on: the global `config`, the configuration held by
the file `configFile` (the one last written by a successful `SaveJSON`, if any), and
the number of calls of `SaveJSON` so far. What a failed write leaves in the file is
not modelled: `file` is kept then, and nothing is proved about it. -/
structure World where
  config : Config
  file : Option Config
  saveCalls : Nat
deriving DecidableEq, Repr

/-- The method `ConfigCommand.Do`: the pair `(out, err)` and the state it leaves. -/
def Do (env : Env) (data : String) (w : World) : (String × Option Error) × World :=
  match env.Unmarshal data w.config with
  | (config1, some err) => (("", some err), { w with config := config1 })
  | (config1, none) =>
    match env.SaveJSON config1 with
    | some err =>
      (("Error updating config", some err),
        { config := config1, file := w.file, saveCalls := w.saveCalls + 1 })
    | none =>
      (("Updated config", none),
        { config := config1, file := some config1, saveCalls := w.saveCalls + 1 })

/-! ## Well-formed configurations and queries -/

/-- The names of the options with a case of their own in `Items`. -/
def namedOptions : List String := ["Service", "Units", "Location", "Icons", "TimeFormat"]

/-- Whether a field has a type the source compiles with: `config.Icons` and
`config.TimeFormat` are strings, `config.Service` and `config.Units` are of string
kind (a string or a named string type), `config.Location` is a `Location`. -/
def Field.typed (f : Field) : Bool :=
  if f.name = "Location" then
    match f.val with
    | .loc _ => true
    | _ => false
  else if f.name = "Service" ∨ f.name = "Units" then
    match f.val with
    | .str _ => true
    | .named _ _ => true
    | _ => false
  else if f.name ∈ namedOptions then
    match f.val with
    | .str _ => true
    | _ => false
  else true

/-- A configuration as a Go struct the source compiles with: field names are
non-empty and pairwise different, and the named options have their types. -/
def WellFormed (c : Config) : Prop :=
  (c.map (fun f => f.name)).Nodup ∧ ∀ f ∈ c, f.name ≠ "" ∧ f.typed = true

instance (c : Config) : Decidable (WellFormed c) := by
  unfold WellFormed; infer_instance

/-- The option name `name` is fuzzy-matched by no described option of another name. -/
def Unambiguous (env : Env) (c : Config) (name : String) : Prop :=
  ∀ f ∈ c, f.desc ≠ "" → env.FuzzyMatches f.name name = true → f.name = name

instance (env : Env) (c : Config) (name : String) : Decidable (Unambiguous env c name) := by
  unfold Unambiguous; infer_instance

/-- The values `Items` offers for an enum option. -/
def allowedValues (env : Env) (option : String) : List String :=
  if option = "Service" then [ env.serviceForecastIO, env.serviceWunderground]
  else if option = "Units" then [env.unitsMetric, env.unitsUS]
  else if option = "TimeFormat" then env.TimeFormats
  else []

/-- Whether the loop body of `Items` gets past its two `continue` tests on a field:
the field has a `desc` tag and its name fuzzy-matches the option name of the query. -/
def visited (env : Env) (arg : String) (f : Field) : Bool :=
  decide (f.desc ≠ "") && env.FuzzyMatches f.name (env.SplitCmd arg).1

/-- The line of an option when all options are browsed, following the specification
of the candidate generator: the five named options, the strings and the integers show
`name: value` and offer the name for completion, without payload; a boolean shows its
name and its value as a checkbox, and carries the snapshot with the flag negated; a
field of any other type shows its name only (a value of a named string type is shown
for `Service` and `Units`). -/
def browseItem (env : Env) (config : Config) (f : Field) : Item :=
  match f.val with
  | .bool b =>
    { Title := f.name, Subtitle := f.desc, Autocomplete := f.name
      Arg := some (commitArg env (config.set f.name (.bool (!b))))
      checkbox := some b }
  | .int n =>
    { Title := f.name ++ (": " ++ toString n), Subtitle := f.desc
      Autocomplete := f.name ++ " ", Arg := none, checkbox := none }
  | .str s =>
    { Title := f.name ++ (": " ++ s), Subtitle := f.desc
      Autocomplete := f.name ++ " ", Arg := none, checkbox := none }
  | .loc l =>
    if f.name = "Location" then
      { Title := f.name ++ (": " ++ l.Name), Subtitle := f.desc
        Autocomplete := f.name ++ " ", Arg := none, checkbox := none }
    else
      { Title := f.name, Subtitle := f.desc, Autocomplete := f.name, Arg := none,
        checkbox := none }
  | .named _ s =>
    if f.name = "Service" ∨ f.name = "Units" then
      { Title := f.name ++ (": " ++ s), Subtitle := f.desc
        Autocomplete := f.name ++ " ", Arg := none, checkbox := none }
    else
      { Title := f.name, Subtitle := f.desc, Autocomplete := f.name, Arg := none,
        checkbox := none }
  | .other _ =>
    { Title := f.name, Subtitle := f.desc, Autocomplete := f.name, Arg := none,
      checkbox := none }

/-- The candidate of a visited option that the loop of `Items` passes (neither chosen
by its exact name among the five named options, nor failing), for a query with option
name `name` and partial value `value`. A named option shows `name: value` and offers
its name for completion. A boolean shows its name (with the hint to press Enter when
named exactly) and its value as a checkbox, with the toggled snapshot. An integer
shows the parsed partial value with the snapshot that sets it, or, when the partial
value is empty, the current value without payload. A string shows the current value,
with the snapshot that sets it to `value` when named exactly. Any other field shows
its name. -/
def candidateLine (env : Env) (config : Config) (name value : String) (f : Field) : Item :=
  match f.val with
  | .bool b =>
    { Title := if name = f.name then f.name ++ " (press Enter to toggle)" else f.name
      Subtitle := f.desc, Autocomplete := f.name
      Arg := some (commitArg env (config.set f.name (.bool (!b))))
      checkbox := some b }
  | .int k =>
    if value = "" then
      { Title := if name = f.name then
                   f.name ++ (": " ++ toString k) ++ " (type a new value to change)"
                 else f.name ++ (": " ++ toString k)
        Subtitle := f.desc, Autocomplete := f.name ++ " ", Arg := none, checkbox := none }
    else
      match Atoi value with
      | .ok n =>
        { Title := f.name ++ (": " ++ toString n), Subtitle := f.desc
          Autocomplete := f.name ++ " "
          Arg := some (commitArg env (config.set f.name (.int n))), checkbox := none }
      | .error _ =>
        { Title := f.name, Subtitle := f.desc, Autocomplete := f.name ++ " ", Arg := none,
          checkbox := none }
  | .str s =>
    { Title := f.name ++ (": " ++ s), Subtitle := f.desc, Autocomplete := f.name ++ " "
      Arg := if name = f.name ∧ f.name ∉ namedOptions then
               some (commitArg env (config.set f.name (.str value)))
             else none
      checkbox := none }
  | .loc l =>
    if f.name = "Location" then
      { Title := f.name ++ (": " ++ l.Name), Subtitle := f.desc
        Autocomplete := f.name ++ " ", Arg := none, checkbox := none }
    else
      { Title := f.name, Subtitle := f.desc, Autocomplete := f.name, Arg := none,
        checkbox := none }
  | .named _ s =>
    if f.name = "Service" ∨ f.name = "Units" then
      { Title := f.name ++ (": " ++ s), Subtitle := f.desc
        Autocomplete := f.name ++ " ", Arg := none, checkbox := none }
    else
      { Title := f.name, Subtitle := f.desc, Autocomplete := f.name, Arg := none,
        checkbox := none }
  | .other _ =>
    { Title := f.name, Subtitle := f.desc, Autocomplete := f.name, Arg := none,
      checkbox := none }

/-! ## A sample environment

Stand-ins for the collaborators, used to run the command on concrete queries: a
case-insensitive subsequence matcher, a splitter at the first blank, a line-based
codec in place of JSON, and a struct with one option of each kind. -/

/-- Whether the first list is a subsequence of the second. -/
def isSubseq : List Char → List Char → Bool
  | [], _ => true
  | _ :: _, [] => false
  | t :: ts, v :: vs => if t = v then isSubseq ts vs else isSubseq (t :: ts) vs

/-- A fuzzy matcher: the letters of `test` occur in `val` in order, case ignored. -/
def sampleFuzzyMatches (val test : String) : Bool :=
  isSubseq (test.toList.map Char.toLower) (val.toList.map Char.toLower)

/-- A splitter: the text before the first blank and the text after it. -/
def sampleSplitCmd (s : String) : String × String :=
  (String.mk (s.toList.takeWhile (fun c => c != ' ')),
   String.mk ((s.toList.dropWhile (fun c => c != ' ')).drop 1))

/-- Text of a value in the sample codec. -/
def encodeValue : Value → String
  | .str s => s
  | .bool b => if b then "true" else "false"
  | .int n => toString n
  | .loc l => l.Name ++ "|" ++ toString l.Latitude ++ "|" ++ toString l.Longitude
  | .named _ s => s
  | .other _ => ""

/-- The sample codec, writing: one line `name=value` per field. -/
def sampleStringify (c : Config) : String :=
  "\n".intercalate (c.map (fun f => f.name ++ "=" ++ encodeValue f.val))

/-- The sample codec, reading one value at the type of the field it goes to. -/
def decodeValue (old : Value) (text : List Char) : Option Value :=
  match old with
  | .str _ => some (.str (String.mk text))
  | .bool _ =>
    if text = "true".toList then some (.bool true)
    else if text = "false".toList then some (.bool false)
    else none
  | .int _ =>
    match Atoi (String.mk text) with
    | .ok n => some (.int n)
    | .error _ => none
  | .loc _ =>
    match text.splitOn '|' with
    | [n, la, lo] =>
      match parseUint la 0, parseUint lo 0 with
      | .ok a, .ok o => some (.loc { Name := String.mk n, Latitude := a, Longitude := o })
      | _, _ => none
    | _ => none
  | .named t _ => some (.named t (String.mk text))
  | .other t => if text = [] then some (.other t) else none

/-- The sample codec, reading line by line into the fields of the struct. -/
def decodeFields : List Field → List (List Char) → Option (List Field)
  | [], [] => some []
  | f :: fs, l :: ls =>
    if (f.name ++ "=").toList.isPrefixOf l then
      match decodeValue f.val (l.drop (f.name ++ "=").length), decodeFields fs ls with
      | some v, some rest => some ({ f with val := v } :: rest)
      | _, _ => none
    else none
  | _, _ => none

/-- The sample codec, reading into the current configuration. -/
def sampleUnmarshal (data : String) (cur : Config) : Config × Option Error :=
  match decodeFields cur (data.toList.splitOn '\n') with
  | some c => (c, none)
  | none => (cur, some (.collaborator "invalid payload"))

/-- A sample environment: no place is found, no icon directory exists, every save
succeeds. -/
def sampleEnv : Env :=
  { SplitCmd := sampleSplitCmd
    FuzzyMatches := sampleFuzzyMatches
    FuzzySort := fun items _ => items
    Stringify := sampleStringify
    Locate := fun q =>
      if q = "Boston" then .ok { Name := "Boston, MA", Latitude := 42, Longitude := 71 }
      else .error (.collaborator "no results")
    ReadDir := fun _ => .error (.collaborator "no such directory")
    fmtF := fun x => toString x
    Unmarshal := sampleUnmarshal
    SaveJSON := fun _ => none
    serviceForecastIO := "forecast.io"
    serviceWunderground := "wunderground"
    unitsMetric := "SI"
    unitsUS := "US"
    TimeFormats := ["15:04", "3:04PM"] }

/-- The sample environment with a store that refuses every write. -/
def readOnlyEnv : Env :=
  { sampleEnv with SaveJSON := fun _ => some (.collaborator "read-only file system") }

/-- A sample struct: the five named options, then a string, an integer and a
boolean option, and a field without `desc` tag. -/
def sampleConfig : Config :=
  [ { name := "Service", desc := "Weather service", val := .str "forecast.io" },
    { name := "Units", desc := "Unit system", val := .str "SI" },
    { name := "Location", desc := "Default location",
      val := .loc { Name := "Paris", Latitude := 48, Longitude := 2 } },
    { name := "Icons", desc := "Icon set", val := .str "grzanka" },
    { name := "TimeFormat", desc := "Time format", val := .str "15:04" },
    { name := "Key", desc := "API key", val := .str "k1" },
    { name := "Count", desc := "Number of days", val := .int 4 },
    { name := "Debug", desc := "Verbose log", val := .bool false },
    { name := "Cache", desc := "", val := .other "cacheInfo" } ]

/-- The sample struct with `Service` and `Units` declared at the named types of their
constants (`type service string`, `type units string`). -/
def namedConfig : Config :=
  (sampleConfig.set "Service" (.named "service" "forecast.io")).set "Units"
    (.named "units" "SI")

/-- A state holding the sample struct, nothing saved yet. -/
def sampleWorld : World := { config := sampleConfig, file := none, saveCalls := 0 }

/-! ## Reflection on the field list -/

theorem FieldByName_set_self (c : Config) (name : String) (v : Value) (f : Field)
    (h : c.FieldByName name = some f) :
    (c.set name v).FieldByName name = some { f with val := v } := by
  induction c with
  | nil => simp [Config.FieldByName] at h
  | cons g gs ih =>
    by_cases hg : g.name = name
    · simp [Config.FieldByName, List.find?, hg] at h
      subst h
      simp [Config.set, Config.FieldByName, List.find?, hg]
    · have h2 : Config.FieldByName gs name = some f := by
        simpa [Config.FieldByName, List.find?, hg] using h
      have := ih h2
      simpa [Config.set, Config.FieldByName, List.find?, hg] using this

theorem FieldByName_set_of_ne (c : Config) (name n : String) (v : Value) (h : n ≠ name) :
    (c.set name v).FieldByName n = c.FieldByName n := by
  induction c with
  | nil => rfl
  | cons g gs ih =>
    by_cases hg : g.name = name
    · have hgn : ¬ g.name = n := fun e => h (e.symm.trans hg)
      simp [Config.set, Config.FieldByName, List.find?, hg, hgn]
      have : ¬ name = n := fun e => h e.symm
      simp [this]
    · by_cases hgn : g.name = n
      · have hnn : ¬ n = name := h
        subst hgn
        simp [Config.set, Config.FieldByName, List.find?, hnn]
      · simpa [Config.set, Config.FieldByName, List.find?, hg, hgn] using ih

theorem FieldByName_of_mem (c : Config) (f : Field)
    (hn : (c.map (fun f => f.name)).Nodup) (hf : f ∈ c) :
    c.FieldByName f.name = some f := by
  induction c with
  | nil => simp at hf
  | cons g gs ih =>
    simp only [List.map_cons, List.nodup_cons] at hn
    rcases List.mem_cons.1 hf with rfl | hmem
    · simp [Config.FieldByName, List.find?]
    · have hne : ¬ g.name = f.name := by
        intro e
        exact hn.1 (e ▸ List.mem_map_of_mem (fun f => f.name) hmem)
      have := ih hn.2 hmem
      simpa [Config.FieldByName, List.find?, hne] using this

/-! ## The loop of `Items` -/

theorem fieldStep_skip (env : Env) (config : Config) (arg : String) (field : Field)
    (items : List Item)
    (h : field.desc = "" ∨ env.FuzzyMatches field.name (env.SplitCmd arg).1 = false) :
    fieldStep env config arg field items = .next items := by
  unfold fieldStep
  rcases h with h | h
  · simp [h]
  · by_cases hd : field.desc = ""
    · simp [hd]
    · simp [hd, h]

theorem ItemsLoop_skip_all (env : Env) (config : Config) (arg : String) (fs : List Field)
    (items : List Item)
    (h : ∀ f ∈ fs, f.desc = "" ∨ env.FuzzyMatches f.name (env.SplitCmd arg).1 = false) :
    ItemsLoop env config arg fs items = some (env.FuzzySort items arg, none) := by
  induction fs with
  | nil => rfl
  | cons g gs ih =>
    have hg := fieldStep_skip env config arg g items (h g (List.mem_cons_self _ _))
    simp only [ItemsLoop, hg]
    exact ih (fun f hf => h f (List.mem_cons_of_mem _ hf))

theorem ItemsLoop_unique (env : Env) (config : Config) (arg : String) (target : Field)
    (fs : List Field) (items : List Item)
    (hnd : (fs.map (fun f => f.name)).Nodup) (hmem : target ∈ fs)
    (hun : ∀ f ∈ fs, f.desc ≠ "" → env.FuzzyMatches f.name (env.SplitCmd arg).1 = true →
      f.name = target.name) :
    ItemsLoop env config arg fs items
      = (fieldStep env config arg target items).finish env arg := by
  induction fs with
  | nil => simp at hmem
  | cons g gs ih =>
    simp only [List.map_cons, List.nodup_cons] at hnd
    by_cases hg : target = g
    · subst hg
      have hrest : ∀ f ∈ gs,
          f.desc = "" ∨ env.FuzzyMatches f.name (env.SplitCmd arg).1 = false := by
        intro f hf
        by_cases hd : f.desc = ""
        · exact Or.inl hd
        · right
          by_contra hm
          have hm1 : env.FuzzyMatches f.name (env.SplitCmd arg).1 = true := by
            simpa using hm
          have := hun f (List.mem_cons_of_mem _ hf) hd hm1
          exact hnd.1 (this ▸ List.mem_map_of_mem (fun f => f.name) hf)
      cases hs : fieldStep env config arg target items with
      | next i => simp [ItemsLoop, hs, Step.finish, ItemsLoop_skip_all env config arg gs i hrest]
      | ret i e => simp [ItemsLoop, hs, Step.finish]
      | panic => simp [ItemsLoop, hs, Step.finish]
    · have hmem1 : target ∈ gs := by
        rcases List.mem_cons.1 hmem with h | h
        · exact absurd h hg
        · exact h
      have hne : g.name ≠ target.name := by
        intro e
        exact hnd.1 (e ▸ List.mem_map_of_mem (fun f => f.name) hmem1)
      have hskip : g.desc = "" ∨ env.FuzzyMatches g.name (env.SplitCmd arg).1 = false := by
        by_cases hd : g.desc = ""
        · exact Or.inl hd
        · right
          by_contra hm
          have hm1 : env.FuzzyMatches g.name (env.SplitCmd arg).1 = true := by
            simpa using hm
          exact hne (hun g (List.mem_cons_self _ _) hd hm1)
      simp only [ItemsLoop, fieldStep_skip env config arg g items hskip]
      exact ih hnd.2 hmem1 (fun f hf => hun f (List.mem_cons_of_mem _ hf))

theorem fieldStep_default (env : Env) (config : Config) (arg : String) (field : Field)
    (items : List Item) (hd : field.desc ≠ "")
    (hm : env.FuzzyMatches field.name (env.SplitCmd arg).1 = true)
    (hn : field.name ∉ namedOptions) :
    fieldStep env config arg field items
      = defaultStep env config field (env.SplitCmd arg).1 (env.SplitCmd arg).2 items := by
  simp only [namedOptions, List.mem_cons, List.mem_singleton, List.not_mem_nil, or_false,
    not_or] at hn
  obtain ⟨h1, h2, h3, h4, h5⟩ := hn
  simp [fieldStep, hd, hm, h1, h2, h3, h4, h5]

/-- The result of `Items` when the option name is fuzzy-matched by one described
option only: what the loop body does on that option. -/
theorem Items_unique (env : Env) (config : Config) (arg name : String) (target : Field)
    (hnd : (config.map (fun f => f.name)).Nodup) (hmem : target ∈ config)
    (hname : (env.SplitCmd arg).1 = name) (htn : target.name = name)
    (hun : Unambiguous env config name) :
    Items env config arg = (fieldStep env config arg target []).finish env arg := by
  unfold Items
  apply ItemsLoop_unique env config arg target config [] hnd hmem
  intro f hf hd hm
  rw [hname] at hm
  rw [htn]
  exact hun f hf hd hm

theorem perm_singleton_eq (l : List Item) (it : Item) (h : l.Perm [it]) : l = [it] :=
  List.perm_singleton.1 h

/-! ## `Do` -/

/-- C1: `Do` has exactly three outcomes. When the payload fails to deserialize, it
returns the empty status with the deserialization error and `SaveJSON` is not called
(the file and the count of save calls are as before). When the payload deserializes
and the save fails, it returns "Error updating config" with the save error. When both
succeed, it returns "Updated config" and no error. -/
theorem Do_three_outcomes (env : Env) (data : String) (w : World) :
    (∃ c e, env.Unmarshal data w.config = (c, some e) ∧
        (Do env data w).1 = ("", some e) ∧
        (Do env data w).2.saveCalls = w.saveCalls ∧ (Do env data w).2.file = w.file) ∨
    (∃ c e, env.Unmarshal data w.config = (c, none) ∧ env.SaveJSON c = some e ∧
        (Do env data w).1 = ("Error updating config", some e) ∧
        (Do env data w).2.saveCalls = w.saveCalls + 1) ∨
    (∃ c, env.Unmarshal data w.config = (c, none) ∧ env.SaveJSON c = none ∧
        (Do env data w).1 = ("Updated config", none) ∧
        (Do env data w).2.saveCalls = w.saveCalls + 1) := by
  rcases hu : env.Unmarshal data w.config with ⟨c, _ | e⟩
  · rcases hs : env.SaveJSON c with _ | e
    · right; right
      exact ⟨c, rfl, hs, by simp [Do, hu, hs], by simp [Do, hu, hs]⟩
    · right; left
      exact ⟨c, e, rfl, hs, by simp [Do, hu, hs], by simp [Do, hu, hs]⟩
  · left
    exact ⟨c, e, rfl, by simp [Do, hu], by simp [Do, hu], by simp [Do, hu]⟩

/-- C2: best-effort persistence. For a payload that deserializes to `c`, the global
configuration is `c` after `Do`, whatever the save does; when the save fails with `e`,
`Do` returns "Error updating config" with `e` and the global configuration is still
`c`: the replacement is not rolled back. -/
theorem Do_keeps_replacement (env : Env) (data : String) (w : World) (c : Config)
    (h : env.Unmarshal data w.config = (c, none)) :
    (Do env data w).2.config = c ∧
    ∀ e, env.SaveJSON c = some e →
      (Do env data w).1 = ("Error updating config", some e) ∧
      (Do env data w).2.config = c := by
  constructor
  · rcases hs : env.SaveJSON c with _ | e <;> simp [Do, h, hs]
  · intro e hs
    simp [Do, h, hs]

/-- Witness for C2: a store that refuses the write, and the payload that turns the
`Debug` flag on. -/
theorem Do_keeps_replacement_witness :
    readOnlyEnv.Unmarshal (sampleStringify (sampleConfig.set "Debug" (.bool true)))
        sampleWorld.config = (sampleConfig.set "Debug" (.bool true), none) ∧
    ((Do readOnlyEnv (sampleStringify (sampleConfig.set "Debug" (.bool true)))
        sampleWorld).2.config = sampleConfig.set "Debug" (.bool true) ∧
     ∀ e, readOnlyEnv.SaveJSON (sampleConfig.set "Debug" (.bool true)) = some e →
      (Do readOnlyEnv (sampleStringify (sampleConfig.set "Debug" (.bool true)))
          sampleWorld).1 = ("Error updating config", some e) ∧
      (Do readOnlyEnv (sampleStringify (sampleConfig.set "Debug" (.bool true)))
          sampleWorld).2.config = sampleConfig.set "Debug" (.bool true)) :=
  ⟨by decide, Do_keeps_replacement readOnlyEnv _ sampleWorld _ (by decide)⟩

/-! ## String and location options -/

/-- C10, at the failing input: the query "Key" names the string option `Key` with an
empty partial value, and the candidate carries a commit payload, the snapshot in which
`Key` is the empty string. On the same struct the integer option (`Count`) and
`Location`, named with an empty partial value, show the current value without
payload. -/
theorem Items_string_option_empty_value_commits :
    sampleEnv.SplitCmd "Key" = ("Key", "") ∧
    Items sampleEnv sampleConfig "Key" = some
      ([{ Title := "Key: k1"
          Subtitle := "API key"
          Autocomplete := "Key "
          Arg := some (commitArg sampleEnv (sampleConfig.set "Key" (.str "")))
          checkbox := none }], none) ∧
    (sampleConfig.set "Key" (.str "")).FieldByName "Key"
      = some { name := "Key", desc := "API key", val := .str "" } ∧
    Items sampleEnv sampleConfig "Count" = some
      ([{ Title := "Count: 4 (type a new value to change)"
          Subtitle := "Number of days"
          Autocomplete := "Count "
          Arg := none
          checkbox := none }], none) ∧
    Items sampleEnv sampleConfig "Location" = some
      ([{ Title := "Location: Paris"
          Subtitle := "Enter a new city/state or ZIP"
          Autocomplete := ""
          Arg := none
          checkbox := none }], none) := by
  decide

/-- What the string case of `Items` does for a free-string option named exactly by the
query: one candidate for every partial value, the empty one included. Its title shows
the current value, and it carries a commit snapshot whose field is the literal partial
value, every other field as in the current configuration. -/
theorem Items_string_option (env : Env) (config : Config) (arg value : String)
    (target : Field) (cur : String)
    (hnd : (config.map (fun f => f.name)).Nodup) (hmem : target ∈ config)
    (hstr : target.val = .str cur) (hdesc : target.desc ≠ "")
    (hplain : target.name ∉ namedOptions)
    (hsplit : env.SplitCmd arg = (target.name, value))
    (hself : env.FuzzyMatches target.name target.name = true)
    (hun : Unambiguous env config target.name)
    (hsort : ∀ l, (env.FuzzySort l arg).Perm l) :
    Items env config arg = some
      ([{ Title := target.name ++ (": " ++ cur)
          Subtitle := target.desc
          Autocomplete := target.name ++ " "
          Arg := some (commitArg env (config.set target.name (.str value)))
          checkbox := none }], none) ∧
    (config.set target.name (.str value)).FieldByName target.name
      = some { target with val := .str value } ∧
    ∀ m, m ≠ target.name →
      (config.set target.name (.str value)).FieldByName m = config.FieldByName m := by
  have h1 : (env.SplitCmd arg).1 = target.name := by rw [hsplit]
  have h2 : (env.SplitCmd arg).2 = value := by rw [hsplit]
  have hfind := FieldByName_of_mem config target hnd hmem
  have hI := Items_unique env config arg target.name target hnd hmem h1 rfl hun
  rw [fieldStep_default env config arg target [] hdesc (by rw [h1]; exact hself) hplain,
    h1, h2] at hI
  refine ⟨?_, FieldByName_set_self config target.name (.str value) target hfind,
    fun m hm => FieldByName_set_of_ne config target.name m (.str value) hm⟩
  rw [hI]
  obtain ⟨tn, td, tv⟩ := target
  simp only at hstr
  subst hstr
  simp only [defaultStep, hfind, Step.finish, ite_true, List.nil_append]
  rw [perm_singleton_eq _ _ (hsort _)]

/-- The string case on the query "Key abc" of the sample struct. -/
theorem Items_string_option_witness :
    Items sampleEnv sampleConfig "Key abc" = some
      ([{ Title := "Key: k1"
          Subtitle := "API key"
          Autocomplete := "Key "
          Arg := some (commitArg sampleEnv (sampleConfig.set "Key" (.str "abc")))
          checkbox := none }], none) :=
  (Items_string_option sampleEnv sampleConfig "Key abc" "abc"
      { name := "Key", desc := "API key", val := .str "k1" } "k1"
      (by decide) (by decide) rfl (by decide) (by decide) (by decide)
      (by decide) (by decide) (fun l => List.Perm.refl l)).1

theorem makeStringChoice_eq (env : Env) (config : Config) (fieldName v cur : String)
    (f : Field) (hf : config.FieldByName fieldName = some f) (hv : f.val = .str cur) :
    makeStringChoice env config fieldName v = some
      { Title := v, Subtitle := "", Autocomplete := ""
        Arg := some (commitArg env (config.set fieldName (.str v)))
        checkbox := some (decide (cur = v)) } := by
  obtain ⟨fn, fd, fv⟩ := f
  simp only at hv
  subst hv
  simp [makeStringChoice, hf]

theorem appendChoiceIf_eq (env : Env) (config : Config) (fieldName v value : String)
    (items : List Item) (mk : String → Item)
    (h : makeStringChoice env config fieldName v = some (mk v)) :
    appendChoiceIf env config fieldName v value items
      = some (items ++ ([v].filter (fun x => env.FuzzyMatches x value)).map mk) := by
  unfold appendChoiceIf
  by_cases hm : env.FuzzyMatches v value = true
  · simp [hm, h, List.filter]
  · simp [hm, List.filter]

theorem appendTimeFormats_eq (env : Env) (config : Config) (mk : String → Item)
    (h : ∀ v, makeStringChoice env config "TimeFormat" v = some (mk v))
    (l : List String) (items : List Item) :
    appendTimeFormats env config l items = some (items ++ l.map mk) := by
  induction l generalizing items with
  | nil => simp [appendTimeFormats]
  | cons v vs ih => simp [appendTimeFormats, h v, ih]

theorem filter_title_of_nodup (mk : String → Item) (hmk : ∀ v, (mk v).Title = v)
    (l : List String) (V : String) (hnd : l.Nodup) (hV : V ∈ l) :
    (l.map mk).filter (fun it => decide (it.Title = V)) = [mk V] := by
  induction l with
  | nil => simp at hV
  | cons v vs ih =>
    simp only [List.nodup_cons] at hnd
    rcases List.mem_cons.1 hV with rfl | hmem
    · have hrest : (vs.map mk).filter (fun it => decide (it.Title = V)) = [] := by
        rw [List.filter_eq_nil_iff]
        intro it hit
        obtain ⟨x, hx, rfl⟩ := List.mem_map.1 hit
        simp only [hmk, decide_eq_true_eq]
        intro e
        exact hnd.1 (e ▸ hx)
      simp [List.filter, hmk, hrest]
    · have hne : ¬ v = V := fun e => hnd.1 (e ▸ hmem)
      simp [List.filter, hmk, hne, ih hnd.2 hmem]

/-- When an enum option is named exactly, `Items` returns one choice for each value of
a duplicate-free list that contains every allowed value matching itself. -/
theorem Items_enum_list (env : Env) (config : Config) (arg option V : String)
    (target : Field) (mk : String → Item)
    (hnd : (config.map (fun f => f.name)).Nodup) (hmem : target ∈ config)
    (hopt : option ∈ ["Service", "Units", "TimeFormat"])
    (hname : target.name = option) (hdesc : target.desc ≠ "")
    (hmk : ∀ v, makeStringChoice env config option v = some (mk v))
    (hV : V ∈ allowedValues env option) (hdistinct : (allowedValues env option).Nodup)
    (hsplit : env.SplitCmd arg = (option, V))
    (hself : env.FuzzyMatches option option = true)
    (hVV : env.FuzzyMatches V V = true)
    (hun : Unambiguous env config option) :
    ∃ l : List String, l.Nodup ∧ V ∈ l ∧ Items env config arg = some (l.map mk, none) := by
  have h1 : (env.SplitCmd arg).1 = option := by rw [hsplit]
  have h2 : (env.SplitCmd arg).2 = V := by rw [hsplit]
  have hI := Items_unique env config arg option target hnd hmem h1 hname hun
  obtain ⟨tn, td, tv⟩ := target
  simp only at hname hdesc
  subst hname
  simp only [List.mem_cons, List.mem_singleton, List.not_mem_nil, or_false] at hopt
  rcases hopt with rfl | rfl | rfl
  · refine ⟨(allowedValues env "Service").filter (fun x => env.FuzzyMatches x V),
      hdistinct.filter _, List.mem_filter.2 ⟨hV, hVV⟩, ?_⟩
    rw [hI]
    simp only [fieldStep, hdesc, h1, h2, hself]
    simp only [appendChoiceIf_eq env config "Service" _ V _ mk (hmk _)]
    simp [Step.retOf, Step.finish, allowedValues, List.filter_cons]
    split <;> split <;> simp
  · refine ⟨(allowedValues env "Units").filter (fun x => env.FuzzyMatches x V),
      hdistinct.filter _, List.mem_filter.2 ⟨hV, hVV⟩, ?_⟩
    rw [hI]
    simp only [fieldStep, hdesc, h1, h2, hself]
    simp only [appendChoiceIf_eq env config "Units" _ V _ mk (hmk _)]
    simp [Step.retOf, Step.finish, allowedValues, List.filter_cons]
    split <;> split <;> simp
  · refine ⟨allowedValues env "TimeFormat", hdistinct, hV, ?_⟩
    rw [hI]
    simp only [fieldStep, hdesc, h1, h2, hself]
    simp [appendTimeFormats_eq env config mk hmk, Step.retOf, Step.finish, allowedValues]

/-- Enum options held in a field of Go type `string` (as `TimeFormat` is): for such an
option among `Service`, `Units`, `TimeFormat` and an allowed value `V`, the query made
of the option name, a blank and `V` returns exactly one candidate titled `V`. Its
snapshot is the current configuration
with that field equal to `V` and every other field unchanged, and `Do` on its payload,
with a succeeding save, leaves that snapshot as the global and as the persisted
configuration. -/
theorem Items_enum_choice_then_Do (env : Env) (config : Config) (option V : String)
    (target : Field) (cur : String)
    (hnd : (config.map (fun f => f.name)).Nodup) (hmem : target ∈ config)
    (hopt : option ∈ ["Service", "Units", "TimeFormat"])
    (hname : target.name = option) (hstr : target.val = .str cur)
    (hdesc : target.desc ≠ "")
    (hV : V ∈ allowedValues env option) (hdistinct : (allowedValues env option).Nodup)
    (hsplit : env.SplitCmd (option ++ " " ++ V) = (option, V))
    (hself : env.FuzzyMatches option option = true)
    (hVV : env.FuzzyMatches V V = true)
    (hun : Unambiguous env config option) :
    ∃ items, Items env config (option ++ " " ++ V) = some (items, none) ∧
      items.filter (fun it => decide (it.Title = V))
        = [{ Title := V, Subtitle := "", Autocomplete := ""
             Arg := some { Keyword := "config", Mode := .ModeDo,
                           Data := env.Stringify (config.set option (.str V)) }
             checkbox := some (decide (cur = V)) }] ∧
      (config.set option (.str V)).FieldByName option
        = some { target with val := .str V } ∧
      (∀ m, m ≠ option →
        (config.set option (.str V)).FieldByName m = config.FieldByName m) ∧
      ∀ w : World, w.config = config →
        env.Unmarshal (env.Stringify (config.set option (.str V))) config
          = (config.set option (.str V), none) →
        env.SaveJSON (config.set option (.str V)) = none →
        Do env (env.Stringify (config.set option (.str V))) w
          = (("Updated config", none),
             { config := config.set option (.str V)
               file := some (config.set option (.str V))
               saveCalls := w.saveCalls + 1 }) := by
  have hfind := FieldByName_of_mem config target hnd hmem
  rw [hname] at hfind
  obtain ⟨l, hl, hVl, hI⟩ := Items_enum_list env config (option ++ " " ++ V) option V target
    (fun v =>
      { Title := v, Subtitle := "", Autocomplete := ""
        Arg := some (commitArg env (config.set option (.str v)))
        checkbox := some (decide (cur = v)) })
    hnd hmem hopt hname hdesc
    (fun v => makeStringChoice_eq env config option v cur target hfind hstr)
    hV hdistinct hsplit hself hVV hun
  refine ⟨_, hI, ?_, FieldByName_set_self config option (.str V) target hfind,
    fun m hm => FieldByName_set_of_ne config option m (.str V) hm, ?_⟩
  · exact filter_title_of_nodup _ (fun _ => rfl) l V hl hVl
  · intro w hw hu hs
    obtain ⟨wc, wf, wn⟩ := w
    simp only at hw
    subst hw
    simp [Do, hu, hs]

/-- The enum case on the query "Units US" of the sample struct, whose `Units` field is
a Go string. -/
theorem Items_enum_choice_then_Do_witness :
    ∃ items, Items sampleEnv sampleConfig ("Units" ++ " " ++ "US") = some (items, none) ∧
      items.filter (fun it => decide (it.Title = "US"))
        = [{ Title := "US", Subtitle := "", Autocomplete := ""
             Arg := some { Keyword := "config", Mode := .ModeDo,
                           Data := sampleEnv.Stringify (sampleConfig.set "Units" (.str "US")) }
             checkbox := some (decide ("SI" = "US")) }] ∧
      (sampleConfig.set "Units" (.str "US")).FieldByName "Units"
        = some { name := "Units", desc := "Unit system", val := .str "US" } ∧
      Do sampleEnv (sampleEnv.Stringify (sampleConfig.set "Units" (.str "US"))) sampleWorld
          = (("Updated config", none),
             { config := sampleConfig.set "Units" (.str "US")
               file := some (sampleConfig.set "Units" (.str "US"))
               saveCalls := 1 }) :=
  match Items_enum_choice_then_Do sampleEnv sampleConfig "Units" "US"
      { name := "Units", desc := "Unit system", val := .str "SI" } "SI"
      (by decide) (by decide) (by decide) rfl rfl (by decide) (by decide) (by decide)
      (by decide) (by decide) (by decide) (by decide) with
  | ⟨items, h1, h2, h3, _, h5⟩ =>
    ⟨items, h1, h2, h3, h5 sampleWorld rfl (by decide) rfl⟩

/-- C3, at the failing input: the struct declares `Service` and `Units` at the named
string types of their constants. The type assertion `.(string)` of `makeStringChoice`
panics on such a field, so the queries "Service forecast.io" and "Units US" return
nothing, where the claim has one candidate for the value. On the same struct
`TimeFormat`, a Go string, gives exactly one candidate for "3:04PM", and `Units`
returns (an empty list) as long as no allowed value matches the partial value. -/
theorem Items_named_enum_panics :
    WellFormed namedConfig ∧
    namedConfig.FieldByName "Service"
      = some { name := "Service", desc := "Weather service",
               val := .named "service" "forecast.io" } ∧
    sampleEnv.SplitCmd ("Service" ++ " " ++ "forecast.io") = ("Service", "forecast.io") ∧
    "forecast.io" ∈ allowedValues sampleEnv "Service" ∧
    makeStringChoice sampleEnv namedConfig "Service" "forecast.io" = none ∧
    Items sampleEnv namedConfig ("Service" ++ " " ++ "forecast.io") = none ∧
    Items sampleEnv namedConfig ("Units" ++ " " ++ "US") = none ∧
    Items sampleEnv namedConfig "Units zzz" = some ([], none) ∧
    (Items sampleEnv namedConfig ("TimeFormat" ++ " " ++ "3:04PM")).map
        (fun r => (r.1.filter (fun it => decide (it.Title = "3:04PM")), r.2))
      = some
        ([{ Title := "3:04PM", Subtitle := "", Autocomplete := ""
            Arg := some (commitArg sampleEnv (namedConfig.set "TimeFormat" (.str "3:04PM")))
            checkbox := some false }], none) := by
  decide

/-! ## Errors of `Items` -/

theorem retOf_ne_ret_err (o : Option (List Item)) (items : List Item) (e : Error) :
    Step.retOf o ≠ .ret items (some e) := by
  cases o <;> simp [Step.retOf]

theorem retOf_ne_next (o : Option (List Item)) (items : List Item) :
    Step.retOf o ≠ .next items := by
  cases o <;> simp [Step.retOf]

/-- A `return` of the loop body with an error hands back the list it was given, and
the error is the one of `Atoi` at an integer option, of `Locate` when `Location` is
named, or of `ReadDir` when `Icons` is named. -/
theorem fieldStep_ret_err (env : Env) (config : Config) (arg : String) (f : Field)
    (acc items : List Item) (e : Error)
    (h : fieldStep env config arg f acc = .ret items (some e)) :
    items = acc ∧ visited env arg f = true ∧
      ((f.name ∉ namedOptions ∧ (∃ n, f.val = .int n) ∧ (env.SplitCmd arg).2 ≠ "" ∧
          Atoi (env.SplitCmd arg).2 = .error e) ∨
       (f.name = "Location" ∧ (env.SplitCmd arg).1 = "Location" ∧
          env.Locate (env.SplitCmd arg).2 = .error e) ∨
       (f.name = "Icons" ∧ (env.SplitCmd arg).1 = "Icons" ∧
          env.ReadDir "icons" = .error e)) := by
  unfold fieldStep at h
  simp only [visited]
  by_cases hd : f.desc = ""
  · simp [hd] at h
  by_cases hm : env.FuzzyMatches f.name (env.SplitCmd arg).1 = true
  swap
  · simp [hd, hm] at h
  simp only [hd, hm, if_false, Bool.not_true, Bool.false_eq_true] at h
  unfold defaultStep at h
  repeat' split at h
  all_goals first
    | exact absurd h (retOf_ne_ret_err _ _ _)
    | simp_all [namedOptions]

/-- A pass of the loop body that goes on to the next field has added one candidate if
the field was visited, and none otherwise. -/
theorem fieldStep_next (env : Env) (config : Config) (arg : String) (f : Field)
    (acc items : List Item)
    (h : fieldStep env config arg f acc = .next items) :
    (visited env arg f = false ∧ items = acc) ∨
      (visited env arg f = true ∧ ∃ it, items = acc ++ [it]) := by
  unfold fieldStep at h
  simp only [visited]
  by_cases hd : f.desc = ""
  · simp [hd] at h
    simp [hd, h]
  by_cases hm : env.FuzzyMatches f.name (env.SplitCmd arg).1 = true
  swap
  · simp [hd, hm] at h
    simp [hd, hm, h]
  simp only [hd, hm, if_false, Bool.not_true, Bool.false_eq_true] at h
  right
  unfold defaultStep at h
  repeat' split at h
  all_goals first
    | exact absurd h (retOf_ne_next _ _)
    | (simp only [Step.next.injEq] at h; subst h; simp [hd, hm])
    | simp_all

/-- A pass of the loop body that goes on to the next field has added, for a visited
field of a well-formed struct, the candidate `candidateLine` of that field. -/
theorem fieldStep_next_line (env : Env) (config : Config) (arg : String) (f : Field)
    (acc items : List Item) (hwf : WellFormed config) (hmem : f ∈ config)
    (h : fieldStep env config arg f acc = .next items) :
    items = acc ++ (if visited env arg f = true then
      [candidateLine env config (env.SplitCmd arg).1 (env.SplitCmd arg).2 f] else []) := by
  have hfind := FieldByName_of_mem config f hwf.1 hmem
  have hty := (hwf.2 f hmem).2
  obtain ⟨n, d, v⟩ := f
  simp only at hfind
  by_cases hd : d = ""
  · simp [fieldStep, hd] at h
    simp [visited, hd, h]
  by_cases hm : env.FuzzyMatches n (env.SplitCmd arg).1 = true
  swap
  · simp [fieldStep, hd, hm] at h
    simp [visited, hd, hm, h]
  have hvis : visited env arg { name := n, desc := d, val := v } = true := by
    simp [visited, hd, hm]
  rw [if_pos hvis]
  by_cases h1 : n = "Service"
  · subst h1
    by_cases hn : (env.SplitCmd arg).1 = "Service"
    · rw [hn] at hm
      simp only [fieldStep, hd, hn, hm] at h
      exact absurd h (retOf_ne_next _ _)
    · cases v <;> simp [Field.typed, namedOptions] at hty <;>
        simp [fieldStep, hd, hm, hn, Config.getText, hfind] at h <;>
        subst h <;>
        simp [candidateLine, summaryItem, namedOptions, hn] <;> rfl
  by_cases h2 : n = "Units"
  · subst h2
    by_cases hn : (env.SplitCmd arg).1 = "Units"
    · rw [hn] at hm
      simp only [fieldStep, hd, hn, hm] at h
      exact absurd h (retOf_ne_next _ _)
    · cases v <;> simp [Field.typed, namedOptions] at hty <;>
        simp [fieldStep, hd, hm, hn, Config.getText, hfind] at h <;>
        subst h <;>
        simp [candidateLine, summaryItem, namedOptions, hn] <;> rfl
  by_cases h3 : n = "Location"
  · subst h3
    cases v <;> simp [Field.typed, namedOptions] at hty
    by_cases hn : (env.SplitCmd arg).1 = "Location"
    · rw [hn] at hm
      by_cases hv : (env.SplitCmd arg).2 = ""
      · simp [fieldStep, hd, hm, hn, hv, Config.getLoc, hfind] at h
      · cases hl : env.Locate (env.SplitCmd arg).2 <;>
          simp [fieldStep, hd, hm, hn, hv, hl, Config.getLoc, hfind] at h
    · simp [fieldStep, hd, hm, hn, Config.getLoc, hfind] at h
      subst h
      simp [candidateLine, summaryItem]
      rfl
  by_cases h4 : n = "Icons"
  · subst h4
    cases v <;> simp [Field.typed, namedOptions] at hty
    by_cases hn : (env.SplitCmd arg).1 = "Icons"
    · rw [hn] at hm
      cases hl : env.ReadDir "icons" with
      | error e => simp [fieldStep, hd, hm, hn, hl] at h
      | ok dirs =>
        simp only [fieldStep, hd, hn, hm, hl] at h
        exact absurd h (retOf_ne_next _ _)
    · simp [fieldStep, hd, hm, hn, Config.getStr, hfind] at h
      subst h
      simp [candidateLine, summaryItem, namedOptions, hn]
      rfl
  by_cases h5 : n = "TimeFormat"
  · subst h5
    cases v <;> simp [Field.typed, namedOptions] at hty
    by_cases hn : (env.SplitCmd arg).1 = "TimeFormat"
    · rw [hn] at hm
      simp only [fieldStep, hd, hn, hm] at h
      exact absurd h (retOf_ne_next _ _)
    · simp [fieldStep, hd, hm, hn, Config.getStr, hfind] at h
      subst h
      simp [candidateLine, summaryItem, namedOptions, hn]
      rfl
  have hplain : n ∉ namedOptions := by simp [namedOptions, h1, h2, h3, h4, h5]
  have hnot : ¬ (n = "Service" ∨ n = "Units") := by simp [h1, h2]
  cases v with
  | int k =>
    by_cases hv : (env.SplitCmd arg).2 = ""
    · simp [fieldStep, defaultStep, hd, hm, h1, h2, h3, h4, h5, hfind, hv] at h
      subst h
      by_cases hn : (env.SplitCmd arg).1 = n <;> simp [candidateLine, hv, hn]
    · cases ha : Atoi (env.SplitCmd arg).2 with
      | error e => simp [fieldStep, defaultStep, hd, hm, h1, h2, h3, h4, h5, hfind, hv, ha] at h
      | ok k2 =>
        simp [fieldStep, defaultStep, hd, hm, h1, h2, h3, h4, h5, hfind, hv, ha] at h
        subst h
        simp [candidateLine, hv, ha]
  | _ =>
    simp [fieldStep, defaultStep, hd, hm, h1, h2, h3, h4, h5, hfind] at h
    subst h
    simp [candidateLine, hplain, hnot, h3]

theorem ItemsLoop_error (env : Env) (config : Config) (arg : String) (fs : List Field)
    (acc items : List Item) (e : Error)
    (h : ItemsLoop env config arg fs acc = some (items, some e)) :
    ∃ pre f post, fs = pre ++ f :: post ∧ visited env arg f = true ∧
      fieldStep env config arg f items = .ret items (some e) ∧
      items.length = acc.length + (pre.filter (visited env arg)).length ∧
      (WellFormed config → (∀ g ∈ fs, g ∈ config) →
        items = acc ++ (pre.filter (visited env arg)).map
          (candidateLine env config (env.SplitCmd arg).1 (env.SplitCmd arg).2)) ∧
      ((f.name ∉ namedOptions ∧ (∃ n, f.val = .int n) ∧ (env.SplitCmd arg).2 ≠ "" ∧
          Atoi (env.SplitCmd arg).2 = .error e) ∨
       (f.name = "Location" ∧ (env.SplitCmd arg).1 = "Location" ∧
          env.Locate (env.SplitCmd arg).2 = .error e) ∨
       (f.name = "Icons" ∧ (env.SplitCmd arg).1 = "Icons" ∧
          env.ReadDir "icons" = .error e)) := by
  induction fs generalizing acc with
  | nil => simp [ItemsLoop] at h
  | cons g gs ih =>
    cases hs : fieldStep env config arg g acc with
    | next acc1 =>
      simp only [ItemsLoop, hs] at h
      obtain ⟨pre, f, post, hfs, hv, hstep, hlen, hline, hsrc⟩ := ih acc1 h
      refine ⟨g :: pre, f, post, by simp [hfs], hv, hstep, ?_, ?_, hsrc⟩
      · rcases fieldStep_next env config arg g acc acc1 hs with ⟨hvg, hacc⟩ | ⟨hvg, it, hacc⟩
        · simp [List.filter, hvg, hlen, hacc]
        · simp [List.filter, hvg, hlen, hacc]
          omega
      · intro hwf hsub
        have h1 := fieldStep_next_line env config arg g acc acc1 hwf
          (hsub g (List.mem_cons_self _ _)) hs
        have h2 := hline hwf (fun x hx => hsub x (List.mem_cons_of_mem _ hx))
        rw [h2, h1]
        by_cases hvg : visited env arg g = true
        · simp [List.filter, hvg]
        · simp [List.filter, hvg]
    | ret i err =>
      simp only [ItemsLoop, hs, Option.some.injEq, Prod.mk.injEq] at h
      obtain ⟨rfl, rfl⟩ := h
      obtain ⟨hacc, hv, hsrc⟩ := fieldStep_ret_err env config arg g acc i e hs
      subst hacc
      exact ⟨[], g, gs, rfl, hv, hs, by simp, fun _ _ => by simp, hsrc⟩
    | panic => simp [ItemsLoop, hs] at h

/-- C7, counterexample: on the query "o abc" the option name "o" fuzzy-matches
`Location`, `Icons`, `TimeFormat` and then the integer option `Count`, whose value
"abc" does not parse: `Items` returns the error together with the three candidates
gathered before. -/
theorem Items_error_with_candidates :
    Items sampleEnv sampleConfig "o abc" = some
      ([{ Title := "Location: Paris", Subtitle := "Default location",
          Autocomplete := "Location ", Arg := none, checkbox := none },
        { Title := "Icons: grzanka", Subtitle := "Icon set",
          Autocomplete := "Icons ", Arg := none, checkbox := none },
        { Title := "TimeFormat: 15:04", Subtitle := "Time format",
          Autocomplete := "TimeFormat ", Arg := none, checkbox := none }],
       some (.numError "abc" false)) := by
  decide

/-- C7, amended: when `Items` returns an error, the error comes from one visited
option (`Atoi` at an integer option, `Locate` at `Location`, `ReadDir` at `Icons`);
that option adds no candidate and no later option is looked at. The returned list has
one entry for each visited option declared before the failing one and, on a
well-formed struct, it is exactly the list of the candidates `candidateLine` of those
options, in declaration order. It is empty when no described option declared before
the failing one fuzzy-matches the option name. -/
theorem Items_error_list (env : Env) (config : Config) (arg : String)
    (items : List Item) (e : Error)
    (h : Items env config arg = some (items, some e)) :
    ∃ pre f post, config = pre ++ f :: post ∧ visited env arg f = true ∧
      fieldStep env config arg f items = .ret items (some e) ∧
      items.length = (pre.filter (visited env arg)).length ∧
      (WellFormed config →
        items = (pre.filter (visited env arg)).map
          (candidateLine env config (env.SplitCmd arg).1 (env.SplitCmd arg).2)) ∧
      ((∀ g ∈ pre, visited env arg g = false) → items = []) ∧
      ((f.name ∉ namedOptions ∧ (∃ n, f.val = .int n) ∧ (env.SplitCmd arg).2 ≠ "" ∧
          Atoi (env.SplitCmd arg).2 = .error e) ∨
       (f.name = "Location" ∧ (env.SplitCmd arg).1 = "Location" ∧
          env.Locate (env.SplitCmd arg).2 = .error e) ∨
       (f.name = "Icons" ∧ (env.SplitCmd arg).1 = "Icons" ∧
          env.ReadDir "icons" = .error e)) := by
  obtain ⟨pre, f, post, hfs, hv, hstep, hlen, hline, hsrc⟩ :=
    ItemsLoop_error env config arg config [] items e h
  refine ⟨pre, f, post, hfs, hv, hstep, by simpa using hlen, ?_, ?_, hsrc⟩
  · intro hwf
    simpa using hline hwf (fun _ hg => hg)
  · intro hpre
    have : pre.filter (visited env arg) = [] := by
      rw [List.filter_eq_nil_iff]
      intro g hg
      simp [hpre g hg]
    rw [this] at hlen
    exact List.length_eq_zero.1 (by simpa using hlen)

/-- Witness for C7 (amended): on the query "o abc" the sample struct fails at `Count`,
and the list returned with the error is made of the candidates of `Location`, `Icons`
and `TimeFormat`. -/
theorem Items_error_list_witness :
    WellFormed sampleConfig ∧
    ∃ pre f post, sampleConfig = pre ++ f :: post ∧ visited sampleEnv "o abc" f = true ∧
      [ ({ Title := "Location: Paris", Subtitle := "Default location",
           Autocomplete := "Location ", Arg := none, checkbox := none } : Item),
        { Title := "Icons: grzanka", Subtitle := "Icon set",
          Autocomplete := "Icons ", Arg := none, checkbox := none },
        { Title := "TimeFormat: 15:04", Subtitle := "Time format",
          Autocomplete := "TimeFormat ", Arg := none, checkbox := none }]
        = (pre.filter (visited sampleEnv "o abc")).map
            (candidateLine sampleEnv sampleConfig "o" "abc") ∧
      (f.name ∉ namedOptions ∧ (∃ n, f.val = .int n) ∧
          Atoi "abc" = .error (.numError "abc" false) ∨
        f.name = "Location" ∨ f.name = "Icons") :=
  match Items_error_list sampleEnv sampleConfig "o abc" _ (.numError "abc" false)
      (show Items sampleEnv sampleConfig "o abc" = some
        ([{ Title := "Location: Paris", Subtitle := "Default location",
            Autocomplete := "Location ", Arg := none, checkbox := none },
          { Title := "Icons: grzanka", Subtitle := "Icon set",
            Autocomplete := "Icons ", Arg := none, checkbox := none },
          { Title := "TimeFormat: 15:04", Subtitle := "Time format",
            Autocomplete := "TimeFormat ", Arg := none, checkbox := none }],
         some (.numError "abc" false)) by decide) with
  | ⟨pre, f, post, h1, h2, _, _, h5, _, h7⟩ =>
    ⟨by decide, pre, f, post, h1, h2, h5 (by decide),
      h7.elim (fun h => Or.inl ⟨h.1, h.2.1, h.2.2.2⟩)
        (fun h => Or.inr (h.elim (fun h => Or.inl h.1) (fun h => Or.inr h.1)))⟩

/-! ## The `TimeFormat` choices -/

/-- C4, at the failing input: the partial value "zzz" fuzzy-matches neither time
format, and the query "TimeFormat zzz" still returns a candidate for each of them. -/
theorem Items_TimeFormat_unfiltered :
    sampleEnv.SplitCmd "TimeFormat zzz" = ("TimeFormat", "zzz") ∧
    sampleEnv.TimeFormats = ["15:04", "3:04PM"] ∧
    sampleEnv.FuzzyMatches "15:04" "zzz" = false ∧
    sampleEnv.FuzzyMatches "3:04PM" "zzz" = false ∧
    Items sampleEnv sampleConfig "TimeFormat zzz" = some
      ([{ Title := "15:04", Subtitle := "", Autocomplete := ""
          Arg := some (commitArg sampleEnv (sampleConfig.set "TimeFormat" (.str "15:04")))
          checkbox := some true },
        { Title := "3:04PM", Subtitle := "", Autocomplete := ""
          Arg := some (commitArg sampleEnv (sampleConfig.set "TimeFormat" (.str "3:04PM")))
          checkbox := some false }], none) ∧
    Items sampleEnv sampleConfig "Units zzz" = some ([], none) := by
  decide

/-! ## Browsing all options -/

theorem fieldStep_browse (env : Env) (config : Config) (arg : String) (f : Field)
    (acc : List Item)
    (hnd : (config.map (fun f => f.name)).Nodup) (hmem : f ∈ config)
    (hne : f.name ≠ "") (hty : f.typed = true) (hd : f.desc ≠ "")
    (hsplit : env.SplitCmd arg = ("", ""))
    (hm : env.FuzzyMatches f.name "" = true) :
    fieldStep env config arg f acc = .next (acc ++ [browseItem env config f]) := by
  have hfind := FieldByName_of_mem config f hnd hmem
  obtain ⟨n, d, v⟩ := f
  simp only at hne hd hm hfind
  have hne2 : ¬ "" = n := fun e => hne e.symm
  by_cases h1 : n = "Service"
  · subst h1
    cases v <;> simp [Field.typed, namedOptions] at hty <;>
      simp [fieldStep, hd, hsplit, hm, Config.getText, hfind, browseItem, summaryItem] <;>
      rfl
  by_cases h2 : n = "Units"
  · subst h2
    cases v <;> simp [Field.typed, namedOptions] at hty <;>
      simp [fieldStep, hd, hsplit, hm, Config.getText, hfind, browseItem, summaryItem] <;>
      rfl
  by_cases h3 : n = "Location"
  · subst h3
    cases v <;> simp [Field.typed, namedOptions] at hty
    simp [fieldStep, hd, hsplit, hm, Config.getLoc, hfind, browseItem, summaryItem]
    rfl
  by_cases h4 : n = "Icons"
  · subst h4
    cases v <;> simp [Field.typed, namedOptions] at hty
    simp [fieldStep, hd, hsplit, hm, Config.getStr, hfind, browseItem, summaryItem]
    rfl
  by_cases h5 : n = "TimeFormat"
  · subst h5
    cases v <;> simp [Field.typed, namedOptions] at hty
    simp [fieldStep, hd, hsplit, hm, Config.getStr, hfind, browseItem, summaryItem]
    rfl
  cases v <;>
    simp [fieldStep, defaultStep, hd, hsplit, hm, h1, h2, h3, h4, h5, hfind, browseItem, hne2]

theorem ItemsLoop_browse (env : Env) (config : Config) (arg : String)
    (hwf : WellFormed config) (hsplit : env.SplitCmd arg = ("", ""))
    (hempty : ∀ n, env.FuzzyMatches n "" = true)
    (fs : List Field) (acc : List Item) (hsub : ∀ f ∈ fs, f ∈ config) :
    ItemsLoop env config arg fs acc = some
      (env.FuzzySort
        (acc ++ (fs.filter (fun f => decide (f.desc ≠ ""))).map (browseItem env config)) arg,
       none) := by
  induction fs generalizing acc with
  | nil => simp [ItemsLoop]
  | cons g gs ih =>
    have hg := hsub g (List.mem_cons_self _ _)
    have hrest := fun f hf => hsub f (List.mem_cons_of_mem _ hf)
    by_cases hd : g.desc = ""
    · rw [ItemsLoop, fieldStep_skip env config arg g acc (Or.inl hd)]
      simp only [ih acc hrest]
      simp [List.filter, hd]
    · rw [ItemsLoop, fieldStep_browse env config arg g acc hwf.1 hg (hwf.2 g hg).1
        (hwf.2 g hg).2 hd hsplit (hempty _)]
      simp only [ih _ hrest]
      simp [List.filter, hd]

theorem Items_browse_eq (env : Env) (config : Config) (arg : String)
    (hwf : WellFormed config) (hsplit : env.SplitCmd arg = ("", ""))
    (hempty : ∀ n, env.FuzzyMatches n "" = true) :
    Items env config arg = some
      (env.FuzzySort
        ((config.filter (fun f => decide (f.desc ≠ ""))).map (browseItem env config)) arg,
       none) := by
  have := ItemsLoop_browse env config arg hwf hsplit hempty config [] (fun _ h => h)
  simpa [Items] using this

/-- C9, counterexample: browsing the sample struct (empty query) returns, for the
boolean option `Debug`, a candidate that carries a payload: the snapshot in which
`Debug` is true. -/
theorem Items_browse_bool_has_payload :
    sampleEnv.SplitCmd "" = ("", "") ∧
    ∃ items, Items sampleEnv sampleConfig "" = some (items, none) ∧
      { Title := "Debug", Subtitle := "Verbose log", Autocomplete := "Debug"
        Arg := some (commitArg sampleEnv (sampleConfig.set "Debug" (.bool true)))
        checkbox := some false } ∈ items :=
  ⟨by decide, (sampleConfig.filter (fun f => decide (f.desc ≠ ""))).map
      (browseItem sampleEnv sampleConfig), by decide, by decide⟩

/-- C9, amended: with an empty option name and an empty partial value, `Items` returns
exactly one candidate per described option (the lines `browseItem`, reordered by
`FuzzySort`). The candidate of a string or integer option and of `Location` shows the
current value in its title; the candidate of every option that is not a boolean carries
no payload; the candidate of a boolean option shows the value as a checkbox and carries
the snapshot with that flag negated. -/
theorem Items_browse (env : Env) (config : Config) (arg : String)
    (hwf : WellFormed config) (hsplit : env.SplitCmd arg = ("", ""))
    (hempty : ∀ n, env.FuzzyMatches n "" = true)
    (hsort : ∀ l, (env.FuzzySort l arg).Perm l) :
    ∃ items, Items env config arg = some (items, none) ∧
      items.Perm
        ((config.filter (fun f => decide (f.desc ≠ ""))).map (browseItem env config)) ∧
      (∀ f b, f.val = .bool b →
        (browseItem env config f).Arg
            = some (commitArg env (config.set f.name (.bool (!b)))) ∧
          (browseItem env config f).checkbox = some b) ∧
      (∀ f, (∀ b, f.val ≠ .bool b) → (browseItem env config f).Arg = none) ∧
      (∀ f s, f.val = .str s → (browseItem env config f).Title = f.name ++ (": " ++ s)) ∧
      (∀ f n, f.val = .int n →
        (browseItem env config f).Title = f.name ++ (": " ++ toString n)) ∧
      (∀ f l, f.name = "Location" → f.val = .loc l →
        (browseItem env config f).Title = "Location" ++ (": " ++ l.Name)) := by
  refine ⟨_, Items_browse_eq env config arg hwf hsplit hempty, hsort _, ?_, ?_, ?_, ?_, ?_⟩
  · intro f b hb
    simp [browseItem, hb]
  · intro f hb
    obtain ⟨n, d, v⟩ := f
    cases v with
    | bool b => exact absurd rfl (hb b)
    | loc l => by_cases h : n = "Location" <;> simp [browseItem, h]
    | named t s => by_cases h : n = "Service" ∨ n = "Units" <;> simp [browseItem, h]
    | _ => simp [browseItem]
  · intro f s hs
    simp [browseItem, hs]
  · intro f n hn
    simp [browseItem, hn]
  · intro f l hl hv
    simp [browseItem, hl, hv]

/-- Witness for C9 (amended): browsing the sample struct gives its eight described
options, one line each. -/
theorem Items_browse_witness :
    ∃ items, Items sampleEnv sampleConfig "" = some (items, none) ∧
      items.Perm ((sampleConfig.filter (fun f => decide (f.desc ≠ ""))).map
        (browseItem sampleEnv sampleConfig)) ∧
      items.length = 8 :=
  match Items_browse sampleEnv sampleConfig "" (by decide) (by decide)
      (fun n => by simp [sampleEnv, sampleFuzzyMatches, isSubseq])
      (fun l => List.Perm.refl l) with
  | ⟨items, h1, h2, _⟩ => ⟨items, h1, h2, by rw [h2.length_eq]; decide⟩

/-! ## Boolean toggles -/

theorem makeStringChoice_isSome (env : Env) (config : Config) (fieldName cur : String)
    (f : Field) (hf : config.FieldByName fieldName = some f) (hv : f.val = .str cur) (v : String) :
    ∃ it, makeStringChoice env config fieldName v = some it :=
  ⟨_, makeStringChoice_eq env config fieldName v cur f hf hv⟩

theorem appendChoiceIf_isSome (env : Env) (config : Config) (fieldName v value : String)
    (items : List Item) (h : ∃ it, makeStringChoice env config fieldName v = some it) :
    ∃ l, appendChoiceIf env config fieldName v value items = some l := by
  obtain ⟨it, hit⟩ := h
  unfold appendChoiceIf
  split <;> simp [hit]

theorem appendTimeFormats_isSome (env : Env) (config : Config)
    (h : ∀ v, ∃ it, makeStringChoice env config "TimeFormat" v = some it)
    (l : List String) (items : List Item) :
    ∃ r, appendTimeFormats env config l items = some r := by
  induction l generalizing items with
  | nil => exact ⟨_, rfl⟩
  | cons v vs ih =>
    obtain ⟨it, hit⟩ := h v
    simp only [appendTimeFormats, hit]
    exact ih _

theorem appendIcons_isSome (env : Env) (config : Config) (value : String)
    (h : ∀ v, ∃ it, makeStringChoice env config "Icons" v = some it)
    (l : List FileInfo) (items : List Item) :
    ∃ r, appendIcons env config value l items = some r := by
  induction l generalizing items with
  | nil => exact ⟨_, rfl⟩
  | cons v vs ih =>
    obtain ⟨it, hit⟩ := h v.Name
    simp only [appendIcons, hit]
    split
    · exact ih _
    · exact ih _

theorem fieldStep_no_panic (env : Env) (config : Config) (arg : String) (f : Field)
    (acc : List Item) (hwf : WellFormed config) (hmem : f ∈ config)
    (hsafe : ∀ t s, f.val = .named t s → f.name ∈ namedOptions →
      (env.SplitCmd arg).1 ≠ f.name) :
    fieldStep env config arg f acc ≠ .panic := by
  have hfind := FieldByName_of_mem config f hwf.1 hmem
  have hty := (hwf.2 f hmem).2
  obtain ⟨n, d, v⟩ := f
  simp only at hfind hsafe
  by_cases hd : d = ""
  · simp [fieldStep, hd]
  by_cases hm : env.FuzzyMatches n (env.SplitCmd arg).1 = true
  swap
  · simp [fieldStep, hd, hm]
  by_cases h1 : n = "Service"
  · subst h1
    cases v <;> simp [Field.typed, namedOptions] at hty
    · rename_i s
      have hmk := makeStringChoice_isSome env config "Service" s _ hfind rfl
      by_cases hn : (env.SplitCmd arg).1 = "Service"
      · have hm2 := hm
        rw [hn] at hm2
        obtain ⟨l1, h1⟩ := appendChoiceIf_isSome env config "Service" ( env.serviceForecastIO)
          (env.SplitCmd arg).2 acc (hmk _)
        obtain ⟨l2, h2⟩ := appendChoiceIf_isSome env config "Service" env.serviceWunderground
          (env.SplitCmd arg).2 l1 (hmk _)
        simp [fieldStep, hd, hm, hm2, hn, h1, h2, Step.retOf]
      · simp [fieldStep, hd, hm, hn, Config.getText, hfind]
    · rename_i t s
      have hn := hsafe t s rfl (by simp [namedOptions])
      simp [fieldStep, hd, hm, hn, Config.getText, hfind]
  by_cases h2 : n = "Units"
  · subst h2
    cases v <;> simp [Field.typed, namedOptions] at hty
    · rename_i s
      have hmk := makeStringChoice_isSome env config "Units" s _ hfind rfl
      by_cases hn : (env.SplitCmd arg).1 = "Units"
      · have hm2 := hm
        rw [hn] at hm2
        obtain ⟨l1, h1⟩ := appendChoiceIf_isSome env config "Units" env.unitsMetric
          (env.SplitCmd arg).2 acc (hmk _)
        obtain ⟨l2, h2⟩ := appendChoiceIf_isSome env config "Units" env.unitsUS
          (env.SplitCmd arg).2 l1 (hmk _)
        simp [fieldStep, hd, hm, hm2, hn, h1, h2, Step.retOf]
      · simp [fieldStep, hd, hm, hn, Config.getText, hfind]
    · rename_i t s
      have hn := hsafe t s rfl (by simp [namedOptions])
      simp [fieldStep, hd, hm, hn, Config.getText, hfind]
  by_cases h3 : n = "Location"
  · subst h3
    cases v <;> simp [Field.typed, namedOptions] at hty
    by_cases hn : (env.SplitCmd arg).1 = "Location"
    · have hm2 := hm
      rw [hn] at hm2
      by_cases hv : (env.SplitCmd arg).2 = ""
      · simp [fieldStep, hd, hm, hm2, hn, hv, Config.getLoc, hfind]
      · cases hl : env.Locate (env.SplitCmd arg).2 <;>
          simp [fieldStep, hd, hm, hm2, hn, hv, hl, Config.getLoc, hfind]
    · simp [fieldStep, hd, hm, hn, Config.getLoc, hfind]
  by_cases h4 : n = "Icons"
  · subst h4
    cases v <;> simp [Field.typed, namedOptions] at hty
    rename_i s
    have hmk := makeStringChoice_isSome env config "Icons" s _ hfind rfl
    by_cases hn : (env.SplitCmd arg).1 = "Icons"
    · have hm2 := hm
      rw [hn] at hm2
      cases hl : env.ReadDir "icons" with
      | error e => simp [fieldStep, hd, hm, hm2, hn, hl]
      | ok dirs =>
        obtain ⟨r, hr⟩ := appendIcons_isSome env config (env.SplitCmd arg).2 hmk dirs acc
        simp [fieldStep, hd, hm, hm2, hn, hl, hr, Step.retOf]
    · simp [fieldStep, hd, hm, hn, Config.getStr, hfind]
  by_cases h5 : n = "TimeFormat"
  · subst h5
    cases v <;> simp [Field.typed, namedOptions] at hty
    rename_i s
    have hmk := makeStringChoice_isSome env config "TimeFormat" s _ hfind rfl
    by_cases hn : (env.SplitCmd arg).1 = "TimeFormat"
    · have hm2 := hm
      rw [hn] at hm2
      obtain ⟨r, hr⟩ := appendTimeFormats_isSome env config hmk env.TimeFormats acc
      simp [fieldStep, hd, hm, hm2, hn, hr, Step.retOf]
    · simp [fieldStep, hd, hm, hn, Config.getStr, hfind]
  cases v with
  | int k =>
    by_cases hv : (env.SplitCmd arg).2 = ""
    · simp [fieldStep, defaultStep, hd, hm, h1, h2, h3, h4, h5, hfind, hv]
    · cases ha : Atoi (env.SplitCmd arg).2 <;>
        simp [fieldStep, defaultStep, hd, hm, h1, h2, h3, h4, h5, hfind, hv, ha]
  | _ => simp [fieldStep, defaultStep, hd, hm, h1, h2, h3, h4, h5, hfind]

theorem ItemsLoop_returns (env : Env) (config : Config) (arg : String)
    (hwf : WellFormed config)
    (hsafe : ∀ f ∈ config, ∀ t s, f.val = .named t s → f.name ∈ namedOptions →
      (env.SplitCmd arg).1 ≠ f.name)
    (fs : List Field) (acc : List Item)
    (hsub : ∀ f ∈ fs, f ∈ config) :
    ∃ r, ItemsLoop env config arg fs acc = some r := by
  induction fs generalizing acc with
  | nil => exact ⟨_, rfl⟩
  | cons g gs ih =>
    have hg := hsub g (List.mem_cons_self _ _)
    cases hs : fieldStep env config arg g acc with
    | panic => exact absurd hs (fieldStep_no_panic env config arg g acc hwf hg (hsafe g hg))
    | ret items err => exact ⟨(items, err), by simp only [ItemsLoop, hs]⟩
    | next acc1 =>
      obtain ⟨r, hr⟩ := ih acc1 (fun f hf => hsub f (List.mem_cons_of_mem _ hf))
      exact ⟨r, by simp only [ItemsLoop, hs, hr]⟩

/-- On a well-formed struct `Items` returns, for every behaviour of the collaborators
and every query that does not name a `Service` or `Units` field of a named string
type. -/
theorem Items_returns (env : Env) (config : Config) (arg : String)
    (hwf : WellFormed config)
    (hsafe : ∀ f ∈ config, ∀ t s, f.val = .named t s → f.name ∈ namedOptions →
      (env.SplitCmd arg).1 ≠ f.name) :
    ∃ r, Items env config arg = some r :=
  ItemsLoop_returns env config arg hwf hsafe config [] (fun _ h => h)

/-! ## Integer options -/

/-- `Atoi` at some inputs: signs, the two ends of the range of a 64-bit `int`, a
non-digit before and after the point where the digits leave the range of `uint64`. -/
theorem Atoi_examples :
    Atoi "42" = .ok 42 ∧ Atoi "-7" = .ok (-7) ∧ Atoi "+5" = .ok 5 ∧ Atoi "007" = .ok 7 ∧
    Atoi "" = .error (.numError "" false) ∧ Atoi "-" = .error (.numError "-" false) ∧
    Atoi "abc" = .error (.numError "abc" false) ∧
    Atoi "4 2" = .error (.numError "4 2" false) ∧
    Atoi "9223372036854775807" = .ok 9223372036854775807 ∧
    Atoi "9223372036854775808" = .error (.numError "9223372036854775808" true) ∧
    Atoi "-9223372036854775808" = .ok (-9223372036854775808) ∧
    Atoi "9999999999999999999x" = .error (.numError "9999999999999999999x" false) ∧
    Atoi "99999999999999999999x" = .error (.numError "99999999999999999999x" true) := by
  refine ⟨?_, ?_, ?_, ?_, ?_, ?_, ?_, ?_, ?_, ?_, ?_, ?_, ?_⟩ <;> rfl

end AlfredWeather
